import Mathlib

/-!
Shallow embedding of the `ksql` package (a thin wrapper over Go's
`database/sql` adding a name-keyed registry of connections and
column-by-name typed accessors on query results).

The embedding models:
* dynamically typed column values (`Value`), mirroring the Go `interface{}`
  values a driver produces;
* the underlying `sql.Rows` streaming cursor (`SqlRows`) with `Next`,
  `Columns`, `Scan`, `Err`, `Close` as explicit state-passing operations;
* the package's buffered cursor `Rows` (snapshot map, lazy column fetch,
  deferred error slot) and its typed getters;
* the single-row view `Row` (one-shot advance flag, close-on-first-advance);
* the global registry (`Databases`, `Get`, `New`, `NewWithDB`, `Close`,
  `DB.Close`) as explicit association-list state.
-/

namespace KSql

/-- Error values surfaced by the package: the four sentinel errors plus
pass-through driver/stream errors (indexed by a code). -/
inductive GoErr where
  | noRows
  | dupConnName
  | columnNotFound
  | invalidConv
  | driver (n : Nat)
  deriving DecidableEq, Repr

/-- Exact Go signed-integer kinds accepted by `convertToInt`
(`int, int8, int16, int32, int64`). -/
inductive IntKind where
  | iInt | i8 | i16 | i32 | i64
  deriving DecidableEq, Repr

/-- Go floating kinds accepted by `convertToDouble` (`float32, float64`). -/
inductive FloatKind where
  | f32 | f64
  deriving DecidableEq, Repr

/-- Opaque model of Go `time.Time` instants. -/
structure GoTime where
  unixNanos : Int
  deriving DecidableEq, Repr

/-- Dynamically typed column value as stored in the snapshot map
(the Go `interface{}` a driver decodes into). `vNull` is the nil
interface (NULL column or missing map key). -/
inductive Value where
  | vBool (b : Bool)
  | vInt (k : IntKind) (n : Int)
  | vUint (n : Int)
  | vFloat (k : FloatKind) (x : Rat)
  | vStr (s : String)
  | vTime (t : GoTime)
  | vBytes (bs : List Nat)
  | vNull
  deriving DecidableEq, Repr

/-- Result of a typed getter, boxed so the five getters share one type. -/
inductive OutVal where
  | ob (b : Bool)
  | oi (n : Int)
  | od (x : Rat)
  | os (s : String)
  | ot (t : GoTime)
  deriving DecidableEq, Repr

/-- Selector for the five typed getters. -/
inductive Getter where
  | gBool | gInt | gDouble | gStr | gTime
  deriving DecidableEq, Repr

/-! ### The snapshot map

Go's `map[string]interface{}` is observed only through indexing and the
comma-ok form, so an association list with first-match lookup where
assignment prepends is an observationally exact model. -/

/-- First-match lookup in the association-list model of the snapshot map. -/
def lookupVal : List (String × Value) → String → Option Value
  | [], _ => none
  | p :: ps, c => if p.1 = c then some p.2 else lookupVal ps c

/-- Go map indexing `rs.values[column]`: nil map or missing key yields the
zero value (nil interface, i.e. `vNull`). -/
def mapIndex (vs : Option (List (String × Value))) (c : String) : Value :=
  match vs with
  | none => .vNull
  | some m => (lookupVal m c).getD .vNull

/-- Republishing loop of `Rows.Next`: `for i := range rs.columns
{ rs.values[rs.columns[i]] = vals[i] }`; assignment prepends, so later
(higher-index) writes win on lookup, as in Go. -/
def pushAll (m : List (String × Value)) (cols : List String)
    (vals : List Value) : List (String × Value) :=
  (cols.zip vals).foldl (fun acc p => p :: acc) m

/-- Lookup in the snapshot a single row `vals` under columns `cols` would
produce: last write wins, hence lookup in the reversed zip. -/
def snapLookup (cols : List String) (vals : List Value) (c : String) :
    Option Value :=
  lookupVal ((cols.zip vals).reverse) c

instance {ε α : Type} [DecidableEq ε] [DecidableEq α] :
    DecidableEq (Except ε α) := fun a b =>
  match a, b with
  | .ok x, .ok y =>
    if h : x = y then isTrue (by rw [h])
    else isFalse (by intro hh; cases hh; exact h rfl)
  | .error x, .error y =>
    if h : x = y then isTrue (by rw [h])
    else isFalse (by intro hh; cases hh; exact h rfl)
  | .ok _, .error _ => isFalse (by intro hh; cases hh)
  | .error _, .ok _ => isFalse (by intro hh; cases hh)

/-! ### The underlying `sql.Rows` stream -/

/-- One driver row: its decoded values, the outcome of scanning it into the
generic `interface{}` loaders, and the outcome of scanning it positionally
into caller-supplied destinations. -/
structure SqlRow where
  vals : List Value
  scanErr : Option GoErr
  destScanErr : Option GoErr
  deriving DecidableEq, Repr

/-- State of an underlying `sql.Rows` stream: rows not yet fetched, the
error (if any) the stream reports at exhaustion, the result of
`Columns()`, the currently positioned row, the error `Err()` currently
reports, the closed flag, and the outcome of the first `Close()`. -/
structure SqlRows where
  pending : List SqlRow
  termErr : Option GoErr
  colsRes : Except GoErr (List String)
  cur : Option SqlRow
  errSeen : Option GoErr
  closed : Bool
  closeErr : Option GoErr
  deriving DecidableEq, Repr

/-- `sql.Rows.Next`: false on a closed stream or with a sticky error;
otherwise positions the head pending row, or reports exhaustion and
publishes the stream's terminal error to `Err()`. -/
def SqlRows.nextS (s : SqlRows) : Bool × SqlRows :=
  if s.closed then (false, s)
  else if s.errSeen.isSome then (false, s)
  else
    match s.pending with
    | [] => (false, { s with cur := none, errSeen := s.termErr })
    | r :: rest => (true, { s with pending := rest, cur := some r })

/-- `sql.Rows.Err`. -/
def SqlRows.errS (s : SqlRows) : Option GoErr :=
  s.errSeen

/-- `sql.Rows.Columns`. -/
def SqlRows.columnsS (s : SqlRows) : Except GoErr (List String) :=
  s.colsRes

/-- `sql.Rows.Scan` into the `want` generic loaders: fails without a
positioned row, on the row's scan error, or on an arity mismatch
(as `database/sql` enforces destination count = column count). -/
def SqlRows.scanLoadS (s : SqlRows) (want : Nat) : Except GoErr (List Value) :=
  match s.cur with
  | none => .error (.driver 0)
  | some r =>
    match r.scanErr with
    | some e => .error e
    | none => if r.vals.length = want then .ok r.vals else .error (.driver 1)

/-- `sql.Rows.Scan` into caller-supplied positional destinations
(used by `Row.Scan`); destinations are opaque, the outcome is the row's
recorded destination-scan outcome. -/
def SqlRows.scanDestS (s : SqlRows) : Option GoErr :=
  match s.cur with
  | none => some (.driver 0)
  | some r => r.destScanErr

/-- `sql.Rows.Close`: idempotent; the first close reports `closeErr`. -/
def SqlRows.closeS (s : SqlRows) : Option GoErr × SqlRows :=
  if s.closed then (none, s)
  else (s.closeErr, { s with closed := true })

/-! ### The package's buffered cursor `Rows` -/

/-- `ksql.Rows`: the wrapped stream, the deferred error slot `rs.err`,
the lazily fetched column names, and the name-keyed snapshot map
(`none` models a nil map). -/
structure Rows where
  sql : SqlRows
  err : Option GoErr
  columns : Option (List String)
  values : Option (List (String × Value))
  deriving DecidableEq, Repr

/-- A fresh `ksql.Rows` as built by `Query`: `&Rows{Rows: rows}`. -/
def Rows.fresh (s : SqlRows) : Rows :=
  ⟨s, none, none, none⟩

/-- `Rows.Err`: the stream's own error if set, else the recorded error. -/
def Rows.Err (rs : Rows) : Option GoErr :=
  match rs.sql.errS with
  | some e => some e
  | none => rs.err

/-- `Rows.Next`: guarded by the sticky recorded error; advances the
stream; on the first successful advance fetches column names and creates
the (empty) snapshot map; scans the row into the loaders and republishes
every column into the snapshot. Any failure records the error and
returns false. -/
def Rows.Next (rs : Rows) : Bool × Rows :=
  match rs.err with
  | some _ => (false, rs)
  | none =>
    match rs.sql.nextS with
    | (false, s') => (false, { rs with sql := s' })
    | (true, s') =>
      match rs.columns with
      | none =>
        match s'.columnsS with
        | .error e => (false, { rs with sql := s', err := some e })
        | .ok cols =>
          match s'.scanLoadS cols.length with
          | .error e =>
            (false,
              { rs with
                sql := s', err := some e, columns := some cols,
                values := some [] })
          | .ok vals =>
            (true,
              { rs with
                sql := s', columns := some cols,
                values := some (pushAll [] cols vals) })
      | some cols =>
        match s'.scanLoadS cols.length with
        | .error e => (false, { rs with sql := s', err := some e })
        | .ok vals =>
          (true,
            { rs with
              sql := s',
              values := some (pushAll (rs.values.getD []) cols vals) })

/-- `Rows.Close` (promoted from the embedded stream). -/
def Rows.CloseR (rs : Rows) : Option GoErr × Rows :=
  match rs.sql.closeS with
  | (e, s') => (e, { rs with sql := s' })

/-- Iterated `Rows.Next`, discarding the boolean results. -/
def advanceN : Nat → Rows → Rows
  | 0, rs => rs
  | k + 1, rs => advanceN k (Rows.Next rs).2

/-- `validateRows`: the shared validation helper — pending error first,
then nil snapshot (`NoRows`), then key presence (`ColumnNotFound`). -/
def validateRows (rs : Rows) (column : String) : Option GoErr :=
  match rs.Err with
  | some e => some e
  | none =>
    match rs.values with
    | none => some .noRows
    | some m =>
      if (lookupVal m column).isSome then none else some .columnNotFound

/-- `convertToInt`: any signed integer kind, widened to 64 bits. -/
def convertToInt : Value → Except GoErr Int
  | .vInt _ n => .ok n
  | _ => .error .invalidConv

/-- `convertToDouble`: any floating kind, widened to 64 bits. -/
def convertToDouble : Value → Except GoErr Rat
  | .vFloat _ x => .ok x
  | _ => .error .invalidConv

/-- `convertToString`: exact kind match only. -/
def convertToString : Value → Except GoErr String
  | .vStr s => .ok s
  | _ => .error .invalidConv

/-- `convertToTime`: exact kind match only. -/
def convertToTime : Value → Except GoErr GoTime
  | .vTime t => .ok t
  | _ => .error .invalidConv

/-- `Rows.GetBoolean`: a bare type assertion on the map index — it does
not call `validateRows`. -/
def Rows.GetBoolean (rs : Rows) (column : String) : Except GoErr Bool :=
  match mapIndex rs.values column with
  | .vBool b => .ok b
  | _ => .error .invalidConv

/-- `Rows.GetInteger`. -/
def Rows.GetInteger (rs : Rows) (column : String) : Except GoErr Int :=
  match validateRows rs column with
  | some e => .error e
  | none => convertToInt (mapIndex rs.values column)

/-- `Rows.GetDouble`. -/
def Rows.GetDouble (rs : Rows) (column : String) : Except GoErr Rat :=
  match validateRows rs column with
  | some e => .error e
  | none => convertToDouble (mapIndex rs.values column)

/-- `Rows.GetString`. -/
def Rows.GetString (rs : Rows) (column : String) : Except GoErr String :=
  match validateRows rs column with
  | some e => .error e
  | none => convertToString (mapIndex rs.values column)

/-- `Rows.GetTime`. -/
def Rows.GetTime (rs : Rows) (column : String) : Except GoErr GoTime :=
  match validateRows rs column with
  | some e => .error e
  | none => convertToTime (mapIndex rs.values column)

/-- Dispatcher over the five typed getters, boxing the results. -/
def Rows.getBy (g : Getter) (rs : Rows) (column : String) :
    Except GoErr OutVal :=
  match g with
  | .gBool => (rs.GetBoolean column).map .ob
  | .gInt => (rs.GetInteger column).map .oi
  | .gDouble => (rs.GetDouble column).map .od
  | .gStr => (rs.GetString column).map .os
  | .gTime => (rs.GetTime column).map .ot

/-! ### The single-row view `Row` -/

/-- `ksql.Row`: a construction-time error, the one-shot advance flag
(`next`), and the wrapped buffered cursor. -/
structure Row where
  err : Option GoErr
  next : Bool
  rows : Rows
  deriving DecidableEq, Repr

/-- A `Row` as built by a successful `QueryRow`:
`&Row{rows: rows, err: nil}`. -/
def Row.fresh (s : SqlRows) : Row :=
  ⟨none, false, Rows.fresh s⟩

/-- Package-level `next(r *Row)`: returns nil immediately if already
advanced; otherwise sets the flag, advances the cursor once, and closes
it on every exit path (the deferred close; on the found-row path the
explicit close's error is returned). -/
def next (r : Row) : Option GoErr × Row :=
  if r.next then (none, r)
  else
    let r1 : Row := { r with next := true }
    match Rows.Next r1.rows with
    | (false, rows1) =>
      let e := rows1.Err
      let rows2 := (Rows.CloseR rows1).2
      (some (e.getD .noRows), { r1 with rows := rows2 })
    | (true, rows1) =>
      match Rows.CloseR rows1 with
      | (some ce, rows2) => (some ce, { r1 with rows := rows2 })
      | (none, rows2) => (none, { r1 with rows := rows2 })

/-- `Row.Scan`: returns the construction error if set; otherwise advances
once (without consulting or setting the one-shot flag), scans positionally
on success, and closes the cursor on every exit path. -/
def Row.Scan (r : Row) : Except GoErr Unit × Row :=
  match r.err with
  | some e => (.error e, r)
  | none =>
    match Rows.Next r.rows with
    | (false, rows1) =>
      let e := rows1.Err
      let rows2 := (Rows.CloseR rows1).2
      (.error (e.getD .noRows), { r with rows := rows2 })
    | (true, rows1) =>
      match rows1.sql.scanDestS with
      | some e =>
        let rows2 := (Rows.CloseR rows1).2
        (.error e, { r with rows := rows2 })
      | none =>
        match Rows.CloseR rows1 with
        | (some ce, rows2) => (.error ce, { r with rows := rows2 })
        | (none, rows2) => (.ok (), { r with rows := rows2 })

/-- `Row.GetBoolean`: lazily trigger the single advance, then delegate. -/
def Row.GetBoolean (r : Row) (column : String) : Except GoErr Bool × Row :=
  match KSql.next r with
  | (some e, r') => (.error e, r')
  | (none, r') => (r'.rows.GetBoolean column, r')

/-- `Row.GetInteger`. -/
def Row.GetInteger (r : Row) (column : String) : Except GoErr Int × Row :=
  match KSql.next r with
  | (some e, r') => (.error e, r')
  | (none, r') => (r'.rows.GetInteger column, r')

/-- `Row.GetDouble`. -/
def Row.GetDouble (r : Row) (column : String) : Except GoErr Rat × Row :=
  match KSql.next r with
  | (some e, r') => (.error e, r')
  | (none, r') => (r'.rows.GetDouble column, r')

/-- `Row.GetString`. -/
def Row.GetString (r : Row) (column : String) : Except GoErr String × Row :=
  match KSql.next r with
  | (some e, r') => (.error e, r')
  | (none, r') => (r'.rows.GetString column, r')

/-- `Row.GetTime`. -/
def Row.GetTime (r : Row) (column : String) : Except GoErr GoTime × Row :=
  match KSql.next r with
  | (some e, r') => (.error e, r')
  | (none, r') => (r'.rows.GetTime column, r')

/-- Dispatcher over the five `Row` getters, boxing the results. -/
def Row.getBy (g : Getter) (r : Row) (column : String) :
    Except GoErr OutVal × Row :=
  match KSql.next r with
  | (some e, r') => (.error e, r')
  | (none, r') => (Rows.getBy g r'.rows column, r')

/-- One operation a caller can perform on a single-row view. -/
inductive RowOp where
  | scan
  | get (g : Getter) (c : String)
  deriving DecidableEq, Repr

/-- State effect of one operation on a `Row`. -/
def Row.stepOp (r : Row) (op : RowOp) : Row :=
  match op with
  | .scan => (Row.Scan r).2
  | .get g c => (Row.getBy g r c).2

/-- Run a sequence of operations on a `Row`, keeping only the state. -/
def Row.run (r : Row) : List RowOp → Row
  | [] => r
  | op :: ops => Row.run (r.stepOp op) ops

/-- Does some operation in the list reach the advance-and-close body?
Getters always call `next`; `Scan` only when no construction error is
pending (`e` is the view's construction error, which no operation
mutates). -/
def anyAttempt (e : Option GoErr) (ops : List RowOp) : Bool :=
  ops.any fun op =>
    match op with
    | .scan => e.isNone
    | .get _ _ => true

/-- Run a sequence of typed-getter calls, collecting results and the
final state. -/
def Row.runGets (r : Row) : List (Getter × String) →
    List (Except GoErr OutVal) × Row
  | [] => ([], r)
  | gc :: gcs =>
    match Row.getBy gc.1 r gc.2 with
    | (res, r') =>
      match Row.runGets r' gcs with
      | (ress, rN) => (res :: ress, rN)

/-! ### The named connection registry -/

/-- A `ksql.DB` handle: a pointer identity (for the identity-based
registry removal in `DB.Close`) and the predetermined outcome of closing
its underlying raw connection. -/
structure DB where
  id : Nat
  closeRes : Option GoErr
  deriving DecidableEq, Repr

/-- The registry `pool`, a Go map observed through lookup, insertion of
fresh names, per-key deletion and key enumeration; association list with
unique keys. -/
abbrev Pool := List (String × DB)

/-- Lookup of a name in the pool (Go map indexing with comma-ok). -/
def poolFind : Pool → String → Option DB
  | [], _ => none
  | p :: ps, n => if p.1 = n then some p.2 else poolFind ps n

/-- Go `delete(pool, key)`: removes the entry with that key. -/
def poolDel (pool : Pool) (n : String) : Pool :=
  pool.filter fun p => !(p.1 == n)

/-- `Databases()`: the registered names, sorted lexicographically. -/
def Databases (pool : Pool) : List String :=
  (pool.map Prod.fst).insertionSort (· ≤ ·)

/-- `Get(name)`. -/
def Get (pool : Pool) (name : String) : Option DB :=
  poolFind pool name

/-- `New(name, driver, dsn)`: duplicate-name check first; then the driver
open (outcome `conn`, producing the raw connection's close behavior);
on success a fresh handle (identity `freshId`) is stored. -/
def New (pool : Pool) (name : String) (conn : Except GoErr (Option GoErr))
    (freshId : Nat) : Except GoErr DB × Pool :=
  if (poolFind pool name).isSome then (.error .dupConnName, pool)
  else
    match conn with
    | .error e => (.error e, pool)
    | .ok closeRes =>
      let d : DB := ⟨freshId, closeRes⟩
      (.ok d, (name, d) :: pool)

/-- `NewWithDB(name, db)`: duplicate-name check first; wraps the adopted
raw connection in a fresh handle. -/
def NewWithDB (pool : Pool) (name : String) (closeRes : Option GoErr)
    (freshId : Nat) : Except GoErr DB × Pool :=
  if (poolFind pool name).isSome then (.error .dupConnName, pool)
  else
    let d : DB := ⟨freshId, closeRes⟩
    (.ok d, (name, d) :: pool)

/-- `DB.Close`: closes the underlying connection first; on failure the
registry is untouched; on success the first entry holding this handle
(by identity) is removed. -/
def DB.Close (pool : Pool) (db : DB) : Option GoErr × Pool :=
  match db.closeRes with
  | some e => (some e, pool)
  | none => (none, pool.eraseP fun p => p.2.id == db.id)

/-- One iteration of the `Close()` loop: look the key up, close the
handle, and delete the entry only when the close succeeded. -/
def closeStep (m : Pool) (k : String) : Pool :=
  match poolFind m k with
  | none => m
  | some d => if d.closeRes.isSome then m else poolDel m k

/-- Package-level `Close()` (close all): iterates over the registered
keys, closing each handle and deleting its entry only when the close
succeeded. -/
def Close (pool : Pool) : Pool :=
  (pool.map Prod.fst).foldl closeStep pool

/-! ### Helper lemmas about the snapshot map -/

theorem foldl_cons_eq (l : List (String × Value)) (m : List (String × Value)) :
    l.foldl (fun acc p => p :: acc) m = l.reverse ++ m := by
  induction l generalizing m with
  | nil => rfl
  | cons p ps ih => simp [List.foldl_cons, ih, List.append_assoc]

theorem pushAll_eq (m : List (String × Value)) (cols : List String)
    (vals : List Value) :
    pushAll m cols vals = (cols.zip vals).reverse ++ m := by
  simp [pushAll, foldl_cons_eq]

theorem lookupVal_append (xs ys : List (String × Value)) (c : String) :
    lookupVal (xs ++ ys) c =
      match lookupVal xs c with
      | some v => some v
      | none => lookupVal ys c := by
  induction xs with
  | nil => simp [lookupVal]
  | cons p ps ih =>
    by_cases h : p.1 = c <;> simp [lookupVal, h, ih]

theorem lookupVal_isSome_iff (l : List (String × Value)) (c : String) :
    (lookupVal l c).isSome ↔ c ∈ l.map Prod.fst := by
  induction l with
  | nil => simp [lookupVal]
  | cons p ps ih =>
    by_cases h : p.1 = c
    · simp [lookupVal, h]
    · simp only [lookupVal, if_neg h, List.map_cons, List.mem_cons, ih]
      constructor
      · exact fun hm => Or.inr hm
      · rintro (hc | hm)
        · exact absurd hc.symm h
        · exact hm

theorem snapLookup_isSome (cols : List String) (vals : List Value)
    (c : String) (hc : c ∈ cols) (hl : vals.length = cols.length) :
    (snapLookup cols vals c).isSome := by
  rw [snapLookup, lookupVal_isSome_iff]
  rw [List.map_reverse, List.mem_reverse]
  rw [List.map_fst_zip cols vals (by omega)]
  exact hc

theorem snapLookup_eq_none (cols : List String) (vals : List Value)
    (c : String) (hc : c ∉ cols) : snapLookup cols vals c = none := by
  have h : ¬ (snapLookup cols vals c).isSome = true := by
    rw [snapLookup, lookupVal_isSome_iff]
    rw [List.map_reverse, List.mem_reverse]
    intro hmem
    obtain ⟨q, hq, hq1⟩ := List.mem_map.mp hmem
    exact hc (hq1 ▸ (List.of_mem_zip hq).1)
  cases hs : snapLookup cols vals c with
  | none => rfl
  | some v => rw [hs] at h; simp at h

theorem lookupVal_pushAll (m : List (String × Value)) (cols : List String)
    (vals : List Value) (c : String) :
    lookupVal (pushAll m cols vals) c =
      match snapLookup cols vals c with
      | some v => some v
      | none => lookupVal m c := by
  rw [pushAll_eq, lookupVal_append, snapLookup]

/-! ### C3, C4, C10: typed getter validation -/

/-- C10: with a pending stream error or recorded advance error on the
cursor, each of the four validated getters returns exactly that error;
it takes precedence over `NoRows` and `ColumnNotFound` since `Err` is
checked first by the shared helper. -/
theorem getters_error_precedence (rs : Rows) (c : String) (e : GoErr)
    (h : rs.Err = some e) :
    rs.GetInteger c = .error e ∧ rs.GetDouble c = .error e ∧
    rs.GetString c = .error e ∧ rs.GetTime c = .error e := by
  simp [Rows.GetInteger, Rows.GetDouble, Rows.GetString, Rows.GetTime,
    validateRows, h]

/-- Witness for C10 at a concrete cursor carrying a recorded error. -/
theorem getters_error_precedence_witness :
    (Rows.mk ⟨[], none, .ok [], none, none, true, none⟩
        (some (.driver 7)) none (some [("id", .vInt .i64 1)])).Err
      = some (.driver 7) ∧
    Rows.GetInteger
        (Rows.mk ⟨[], none, .ok [], none, none, true, none⟩
          (some (.driver 7)) none (some [("id", .vInt .i64 1)])) "id"
      = .error (.driver 7) :=
  ⟨by decide,
   (getters_error_precedence
      (Rows.mk ⟨[], none, .ok [], none, none, true, none⟩
        (some (.driver 7)) none (some [("id", .vInt .i64 1)])) "id"
      (.driver 7) (by decide)).1⟩

/-- C4: `GetBoolean` skips the shared validation helper; with no row
ever positioned (nil snapshot) it reports a type-conversion failure for
any column name, never `NoRows` or `ColumnNotFound`. -/
theorem getBoolean_no_validation (rs : Rows) (c : String)
    (h : rs.values = none) :
    rs.GetBoolean c = .error .invalidConv := by
  simp [Rows.GetBoolean, mapIndex, h]

/-- Witness for C4 at a concrete fresh cursor. -/
theorem getBoolean_no_validation_witness :
    (Rows.fresh ⟨[], none, .ok [], none, none, false, none⟩).values = none ∧
    (Rows.fresh ⟨[], none, .ok [], none, none, false, none⟩).GetBoolean "x"
      = .error .invalidConv :=
  ⟨rfl, getBoolean_no_validation
    (Rows.fresh ⟨[], none, .ok [], none, none, false, none⟩) "x" rfl⟩

/-- C3: with no pending error, the four validated getters fail with
`NoRows` on a nil snapshot, with `ColumnNotFound` on an absent key, and
otherwise convert without coercion: any signed integer kind widens for
the integer accessor, any floating kind for the float accessor, string
and timestamp need an exact kind, and every other kind yields
`InvalidTypeConversion`. -/
theorem getters_validation_order (rs : Rows) (c : String)
    (h : rs.Err = none) :
    (rs.values = none →
      rs.GetInteger c = .error .noRows ∧ rs.GetDouble c = .error .noRows ∧
      rs.GetString c = .error .noRows ∧ rs.GetTime c = .error .noRows) ∧
    (∀ m, rs.values = some m → lookupVal m c = none →
      rs.GetInteger c = .error .columnNotFound ∧
      rs.GetDouble c = .error .columnNotFound ∧
      rs.GetString c = .error .columnNotFound ∧
      rs.GetTime c = .error .columnNotFound) ∧
    (∀ m v, rs.values = some m → lookupVal m c = some v →
      ((∀ k n, v = Value.vInt k n → rs.GetInteger c = .ok n) ∧
       ((∀ k n, v ≠ Value.vInt k n) →
         rs.GetInteger c = .error .invalidConv) ∧
       (∀ k x, v = Value.vFloat k x → rs.GetDouble c = .ok x) ∧
       ((∀ k x, v ≠ Value.vFloat k x) →
         rs.GetDouble c = .error .invalidConv) ∧
       (∀ s, v = Value.vStr s → rs.GetString c = .ok s) ∧
       ((∀ s, v ≠ Value.vStr s) → rs.GetString c = .error .invalidConv) ∧
       (∀ t, v = Value.vTime t → rs.GetTime c = .ok t) ∧
       ((∀ t, v ≠ Value.vTime t) → rs.GetTime c = .error .invalidConv))) := by
  refine ⟨fun hv => ?_, fun m hv hl => ?_, fun m v hv hl => ?_⟩
  · simp [Rows.GetInteger, Rows.GetDouble, Rows.GetString, Rows.GetTime,
      validateRows, h, hv]
  · simp [Rows.GetInteger, Rows.GetDouble, Rows.GetString, Rows.GetTime,
      validateRows, h, hv, hl]
  · have hval : validateRows rs c = none := by
      simp [validateRows, h, hv, hl]
    refine ⟨?_, ?_, ?_, ?_, ?_, ?_, ?_, ?_⟩ <;>
      first
        | (intro k n hvv
           simp [Rows.GetInteger, Rows.GetDouble, hval, mapIndex, hv, hl,
             hvv, convertToInt, convertToDouble])
        | (intro s hvv
           simp [Rows.GetString, Rows.GetTime, hval, mapIndex, hv, hl, hvv,
             convertToString, convertToTime])
        | (intro hne
           cases v <;>
             simp_all [Rows.GetInteger, Rows.GetDouble, Rows.GetString,
               Rows.GetTime, hval, mapIndex, hv, hl, convertToInt,
               convertToDouble, convertToString, convertToTime])

/-- Witness for C3 at a concrete positioned cursor. -/
theorem getters_validation_order_witness :
    (Rows.mk ⟨[], none, .ok ["id"], none, none, true, none⟩ none
        (some ["id"]) (some [("id", .vInt .i8 5)])).Err = none ∧
    Rows.GetInteger
        (Rows.mk ⟨[], none, .ok ["id"], none, none, true, none⟩ none
          (some ["id"]) (some [("id", .vInt .i8 5)])) "id" = .ok 5 ∧
    Rows.GetString
        (Rows.mk ⟨[], none, .ok ["id"], none, none, true, none⟩ none
          (some ["id"]) (some [("id", .vInt .i8 5)])) "id"
      = .error .invalidConv ∧
    Rows.GetDouble
        (Rows.mk ⟨[], none, .ok ["id"], none, none, true, none⟩ none
          (some ["id"]) (some [("id", .vInt .i8 5)])) "missing"
      = .error .columnNotFound := by
  have h := getters_validation_order
    (Rows.mk ⟨[], none, .ok ["id"], none, none, true, none⟩ none
      (some ["id"]) (some [("id", .vInt .i8 5)])) "id" (by decide)
  have h2 := getters_validation_order
    (Rows.mk ⟨[], none, .ok ["id"], none, none, true, none⟩ none
      (some ["id"]) (some [("id", .vInt .i8 5)])) "missing" (by decide)
  refine ⟨by decide, ?_, ?_, ?_⟩
  · exact (h.2.2 [("id", .vInt .i8 5)] (.vInt .i8 5) rfl (by decide)).1
      .i8 5 rfl
  · exact (h.2.2 [("id", .vInt .i8 5)] (.vInt .i8 5) rfl
      (by decide)).2.2.2.2.2.1 (by intro s hs; cases hs)
  · exact (h2.2.1 [("id", .vInt .i8 5)] rfl (by decide)).2.1

/-! ### C6: advancing is idempotent once false -/

theorem nextS_false_sticky (s s' : SqlRows) (h : s.nextS = (false, s')) :
    s'.nextS = (false, s') := by
  unfold SqlRows.nextS at h ⊢
  by_cases hc : s.closed
  · simp [hc] at h
    rw [← h]
    simp [hc]
  · by_cases he : s.errSeen.isSome
    · simp [hc, he] at h
      rw [← h]
      simp [hc, he]
    · cases hp : s.pending with
      | nil =>
        simp [hc, he, hp] at h
        cases ht : s.termErr with
        | some e => rw [← h]; simp [hc, ht]
        | none => rw [← h]; simp [hc, ht, hp]
      | cons r rest => simp [hc, he, hp] at h

theorem Next_eq_err (rs : Rows) (e : GoErr) (h : rs.err = some e) :
    Rows.Next rs = (false, rs) := by
  simp [Rows.Next, h]

theorem Next_eq_stop (rs : Rows) (s' : SqlRows) (h : rs.err = none)
    (hn : rs.sql.nextS = (false, s')) :
    Rows.Next rs = (false, { rs with sql := s' }) := by
  simp [Rows.Next, h, hn]

theorem Next_eq_colsErr (rs : Rows) (s' : SqlRows) (e : GoErr)
    (h : rs.err = none) (hn : rs.sql.nextS = (true, s'))
    (hc : rs.columns = none) (hcr : s'.columnsS = .error e) :
    Rows.Next rs = (false, { rs with sql := s', err := some e }) := by
  simp [Rows.Next, h, hn, hc, hcr]

theorem Next_eq_scanErrFirst (rs : Rows) (s' : SqlRows)
    (cols : List String) (e : GoErr) (h : rs.err = none)
    (hn : rs.sql.nextS = (true, s')) (hc : rs.columns = none)
    (hcr : s'.columnsS = .ok cols)
    (hsc : s'.scanLoadS cols.length = .error e) :
    Rows.Next rs =
      (false,
        { rs with
          sql := s', err := some e, columns := some cols,
          values := some [] }) := by
  simp [Rows.Next, h, hn, hc, hcr, hsc]

theorem Next_eq_okFirst (rs : Rows) (s' : SqlRows) (cols : List String)
    (vals : List Value) (h : rs.err = none)
    (hn : rs.sql.nextS = (true, s')) (hc : rs.columns = none)
    (hcr : s'.columnsS = .ok cols)
    (hsc : s'.scanLoadS cols.length = .ok vals) :
    Rows.Next rs =
      (true,
        { rs with
          sql := s', columns := some cols,
          values := some (pushAll [] cols vals) }) := by
  simp [Rows.Next, h, hn, hc, hcr, hsc]

theorem Next_eq_scanErrLater (rs : Rows) (s' : SqlRows)
    (cols : List String) (e : GoErr) (h : rs.err = none)
    (hn : rs.sql.nextS = (true, s')) (hc : rs.columns = some cols)
    (hsc : s'.scanLoadS cols.length = .error e) :
    Rows.Next rs = (false, { rs with sql := s', err := some e }) := by
  simp [Rows.Next, h, hn, hc, hsc]

theorem Next_eq_okLater (rs : Rows) (s' : SqlRows) (cols : List String)
    (vals : List Value) (h : rs.err = none)
    (hn : rs.sql.nextS = (true, s')) (hc : rs.columns = some cols)
    (hsc : s'.scanLoadS cols.length = .ok vals) :
    Rows.Next rs =
      (true,
        { rs with
          sql := s',
          values := some (pushAll (rs.values.getD []) cols vals) }) := by
  simp [Rows.Next, h, hn, hc, hsc]

theorem Next_false_immediate (rs : Rows) (h : rs.err.isSome) :
    Rows.Next rs = (false, rs) := by
  cases herr : rs.err with
  | none => rw [herr] at h; simp at h
  | some e => exact Next_eq_err rs e herr

theorem Next_false_sticky (rs rs' : Rows) (h : Rows.Next rs = (false, rs')) :
    Rows.Next rs' = (false, rs') := by
  cases herr : rs.err with
  | some e =>
    rw [Next_eq_err rs e herr] at h
    simp at h
    rw [← h]
    exact Next_eq_err rs e herr
  | none =>
    cases hn : rs.sql.nextS with
    | mk b s1 =>
      cases b with
      | false =>
        rw [Next_eq_stop rs s1 herr hn] at h
        simp at h
        have h1 : s1.nextS = (false, s1) := nextS_false_sticky rs.sql s1 hn
        rw [← h]
        have h2 := Next_eq_stop { rs with sql := s1 } s1 herr h1
        simpa using h2
      | true =>
        cases hcols : rs.columns with
        | none =>
          cases hcr : s1.columnsS with
          | error e =>
            rw [Next_eq_colsErr rs s1 e herr hn hcols hcr] at h
            simp at h
            rw [← h]
            exact Next_eq_err _ e rfl
          | ok cols =>
            cases hsc : s1.scanLoadS cols.length with
            | error e =>
              rw [Next_eq_scanErrFirst rs s1 cols e herr hn hcols hcr hsc]
                at h
              simp at h
              rw [← h]
              exact Next_eq_err _ e rfl
            | ok vals =>
              rw [Next_eq_okFirst rs s1 cols vals herr hn hcols hcr hsc]
                at h
              simp at h
        | some cols =>
          cases hsc : s1.scanLoadS cols.length with
          | error e =>
            rw [Next_eq_scanErrLater rs s1 cols e herr hn hcols hsc] at h
            simp at h
            rw [← h]
            exact Next_eq_err _ e rfl
          | ok vals =>
            rw [Next_eq_okLater rs s1 cols vals herr hn hcols hsc] at h
            simp at h

/-- C6: `Rows.Next` returns false immediately (state untouched) when the
cursor is already failed, and once it has returned false every further
call returns false on the same state, without re-querying the stream. -/
theorem advance_false_idempotent (rs rs' : Rows) :
    (rs.err.isSome → Rows.Next rs = (false, rs)) ∧
    (Rows.Next rs = (false, rs') → Rows.Next rs' = (false, rs')) :=
  ⟨Next_false_immediate rs, Next_false_sticky rs rs'⟩

/-- Witness for C6: a failed cursor and an exhausted cursor, concretely. -/
theorem advance_false_idempotent_witness :
    (Rows.mk ⟨[], none, .ok [], none, none, false, none⟩
        (some (.driver 3)) none none).err.isSome ∧
    Rows.Next (Rows.mk ⟨[], none, .ok [], none, none, false, none⟩
        (some (.driver 3)) none none)
      = (false, Rows.mk ⟨[], none, .ok [], none, none, false, none⟩
          (some (.driver 3)) none none) ∧
    Rows.Next (Rows.fresh ⟨[], none, .ok [], none, none, false, none⟩)
      = (false, Rows.fresh ⟨[], none, .ok [], none, none, false, none⟩) :=
  ⟨by decide,
   (advance_false_idempotent
      (Rows.mk ⟨[], none, .ok [], none, none, false, none⟩
        (some (.driver 3)) none none)
      (Rows.mk ⟨[], none, .ok [], none, none, false, none⟩
        (some (.driver 3)) none none)).1 (by decide),
   (advance_false_idempotent
      (Rows.fresh ⟨[], none, .ok [], none, none, false, none⟩)
      (Rows.fresh ⟨[], none, .ok [], none, none, false, none⟩)).2
     (by decide)⟩

/-! ### C7: duplicate registry names are rejected without mutation -/

/-- C7: opening (`New`) or adopting (`NewWithDB`) under a name already
registered fails with `DuplicateName` and leaves the registry — including
the existing entry for that name — unchanged. -/
theorem duplicate_name_rejected (pool : Pool) (n : String) (d : DB)
    (conn : Except GoErr (Option GoErr)) (cr : Option GoErr)
    (fid fid2 : Nat) (h : poolFind pool n = some d) :
    New pool n conn fid = (.error .dupConnName, pool) ∧
    NewWithDB pool n cr fid2 = (.error .dupConnName, pool) ∧
    poolFind (New pool n conn fid).2 n = some d ∧
    poolFind (NewWithDB pool n cr fid2).2 n = some d := by
  simp [New, NewWithDB, h]

/-- Witness for C7 on a one-entry registry. -/
theorem duplicate_name_rejected_witness :
    poolFind [("db1", DB.mk 0 none)] "db1" = some (DB.mk 0 none) ∧
    New [("db1", DB.mk 0 none)] "db1" (.ok none) 1
      = (.error .dupConnName, [("db1", DB.mk 0 none)]) ∧
    NewWithDB [("db1", DB.mk 0 none)] "db1" none 2
      = (.error .dupConnName, [("db1", DB.mk 0 none)]) :=
  ⟨by decide,
   (duplicate_name_rejected [("db1", DB.mk 0 none)] "db1" (DB.mk 0 none)
      (.ok none) none 1 2 (by decide)).1,
   (duplicate_name_rejected [("db1", DB.mk 0 none)] "db1" (DB.mk 0 none)
      (.ok none) none 1 2 (by decide)).2.1⟩

/-! ### Registry helper lemmas -/

theorem poolFind_eq_none_iff (m : Pool) (k : String) :
    poolFind m k = none ↔ ∀ p ∈ m, p.1 ≠ k := by
  induction m with
  | nil => simp [poolFind]
  | cons a l ih => by_cases h : a.1 = k <;> simp [poolFind, h, ih]

theorem poolFind_mem (m : Pool) (k : String) (d : DB)
    (h : poolFind m k = some d) : (k, d) ∈ m := by
  induction m with
  | nil => simp [poolFind] at h
  | cons a l ih =>
    by_cases ha : a.1 = k
    · cases a with
      | mk a1 a2 =>
        simp only [poolFind] at h
        rw [if_pos ha] at h
        cases h
        cases ha
        exact List.mem_cons_self _ _
    · simp only [poolFind] at h
      rw [if_neg ha] at h
      exact List.mem_cons_of_mem _ (ih h)

theorem key_unique (m : Pool) (hk : (m.map Prod.fst).Nodup)
    {p q : String × DB} (hp : p ∈ m) (hq : q ∈ m) (h : p.1 = q.1) :
    p = q := by
  induction m with
  | nil => cases hp
  | cons a l ih =>
    rw [List.map_cons, List.nodup_cons] at hk
    rcases List.mem_cons.mp hp with rfl | hp' <;>
      rcases List.mem_cons.mp hq with rfl | hq'
    · rfl
    · exact absurd (h ▸ List.mem_map_of_mem Prod.fst hq') hk.1
    · exact absurd (h ▸ List.mem_map_of_mem Prod.fst hp') hk.1
    · exact ih hk.2 hp' hq'

theorem keys_eraseP_id (pool : Pool) (d : DB) (n : String)
    (hk : (pool.map Prod.fst).Nodup)
    (hid : (pool.map (fun p => p.2.id)).Nodup) (hm : (n, d) ∈ pool) :
    n ∉ (pool.eraseP (fun p => p.2.id == d.id)).map Prod.fst := by
  induction pool with
  | nil => cases hm
  | cons a l ih =>
    rw [List.map_cons, List.nodup_cons] at hk hid
    rcases List.mem_cons.mp hm with rfl | hm'
    · rw [List.eraseP_cons_of_pos (by simp)]
      exact hk.1
    · by_cases hp : a.2.id == d.id
      · exfalso
        have : d.id ∈ l.map (fun p => p.2.id) :=
          List.mem_map_of_mem _ hm'
        exact hid.1 ((by simpa using hp : a.2.id = d.id) ▸ this)
      · rw [List.eraseP_cons_of_neg (by simpa using hp)]
        rw [List.map_cons, List.mem_cons]
        rintro (rfl | hin)
        · exact hk.1 (List.mem_map.mpr ⟨(a.1, d), hm', rfl⟩)
        · exact ih hk.2 hid.2 hm' hin

/-- Survival condition of an entry under the close-all loop over keys
`ks`: it survives iff its key is not visited or its close fails. -/
def keepCond (ks : List String) (p : String × DB) : Bool :=
  !(ks.contains p.1) || p.2.closeRes.isSome

theorem closeStep_none (m : Pool) (k : String)
    (hf : poolFind m k = none) : closeStep m k = m := by
  simp [closeStep, hf]

theorem closeStep_keep (m : Pool) (k : String) (d : DB)
    (hf : poolFind m k = some d) (hd : d.closeRes.isSome) :
    closeStep m k = m := by
  simp [closeStep, hf, hd]

theorem closeStep_del (m : Pool) (k : String) (d : DB)
    (hf : poolFind m k = some d) (hd : ¬ d.closeRes.isSome = true) :
    closeStep m k = poolDel m k := by
  simp [closeStep, hf, hd]

theorem closeStep_keys_nodup (m : Pool) (k : String)
    (hm : (m.map Prod.fst).Nodup) :
    ((closeStep m k).map Prod.fst).Nodup := by
  cases hf : poolFind m k with
  | none => simpa [closeStep, hf] using hm
  | some d =>
    by_cases hd : d.closeRes.isSome
    · simpa [closeStep, hf, hd] using hm
    · simp only [closeStep, hf, hd, if_false, Bool.false_eq_true]
      exact ((List.filter_sublist m).map Prod.fst).nodup hm

theorem close_fold (ks : List String) :
    ∀ (m : Pool), ks.Nodup → (m.map Prod.fst).Nodup →
      ks.foldl closeStep m = m.filter (keepCond ks) := by
  induction ks with
  | nil =>
    intro m _ _
    simp only [List.foldl_nil]
    have h1 : ∀ p ∈ m, keepCond [] p = (fun _ => true) p := by
      intro p _
      simp [keepCond]
    rw [List.filter_congr h1, List.filter_true]
  | cons k ks ih =>
    intro m hks hm
    have hks1 : k ∉ ks := (List.nodup_cons.mp hks).1
    have hks2 : ks.Nodup := (List.nodup_cons.mp hks).2
    rw [List.foldl_cons,
      ih (closeStep m k) hks2 (closeStep_keys_nodup m k hm)]
    cases hf : poolFind m k with
    | none =>
      rw [closeStep_none m k hf]
      apply List.filter_congr
      intro p hp
      have hne : p.1 ≠ k := (poolFind_eq_none_iff m k).mp hf p hp
      simp [keepCond, List.contains_cons, hne]
    | some d =>
      by_cases hd : d.closeRes.isSome
      · rw [closeStep_keep m k d hf hd]
        apply List.filter_congr
        intro p hp
        by_cases hpk : p.1 = k
        · have hpd : p = (k, d) :=
            key_unique m hm hp (poolFind_mem m k d hf) hpk
          simp [keepCond, hpd, hd]
        · simp [keepCond, List.contains_cons, hpk]
      · rw [closeStep_del m k d hf hd]
        unfold poolDel
        rw [List.filter_filter]
        apply List.filter_congr
        intro p hp
        by_cases hpk : p.1 = k
        · have hpd : p = (k, d) :=
            key_unique m hm hp (poolFind_mem m k d hf) hpk
          have hnone : d.closeRes = none :=
            Option.not_isSome_iff_eq_none.mp hd
          simp [keepCond, hpd, List.contains_cons, hnone]
        · simp [keepCond, List.contains_cons, hpk]

theorem close_eq_filter (pool : Pool) (hk : (pool.map Prod.fst).Nodup) :
    Close pool = pool.filter (keepCond (pool.map Prod.fst)) :=
  close_fold (pool.map Prod.fst) pool hk hk

theorem keepCond_of_mem (pool : Pool) (n : String) (d : DB)
    (hm : (n, d) ∈ pool) :
    keepCond (pool.map Prod.fst) (n, d) = d.closeRes.isSome := by
  have hc : (pool.map Prod.fst).contains n = true :=
    List.elem_eq_true_of_mem (List.mem_map.mpr ⟨(n, d), hm, rfl⟩)
  show (!((pool.map Prod.fst).contains n) || d.closeRes.isSome)
      = d.closeRes.isSome
  rw [hc]
  exact Bool.false_or _

/-! ### C9: close-all keeps failing handles, removes the rest -/

/-- C9: the close-all loop visits every registered handle; an entry
survives it exactly when its underlying close fails, and nothing new
appears. -/
theorem closeAll_keeps_failures (pool : Pool)
    (hk : (pool.map Prod.fst).Nodup) (n : String) (d : DB)
    (hm : (n, d) ∈ pool) :
    ((n, d) ∈ Close pool ↔ d.closeRes.isSome) ∧
    (∀ p, p ∈ Close pool → p ∈ pool) := by
  rw [close_eq_filter pool hk]
  constructor
  · constructor
    · intro h
      have h2 := (List.mem_filter.mp h).2
      rw [keepCond_of_mem pool n d hm] at h2
      exact h2
    · intro h
      refine List.mem_filter.mpr ⟨hm, ?_⟩
      rw [keepCond_of_mem pool n d hm]
      exact h
  · intro p hp
    exact List.mem_of_mem_filter hp

/-- Witness for C9: a two-entry registry where one close fails. -/
theorem closeAll_keeps_failures_witness :
    ([("a", DB.mk 0 (some (.driver 5))), ("b", DB.mk 1 none)].map
        Prod.fst).Nodup ∧
    ("a", DB.mk 0 (some (.driver 5)))
        ∈ [("a", DB.mk 0 (some (.driver 5))), ("b", DB.mk 1 none)] ∧
    (("a", DB.mk 0 (some (.driver 5)))
        ∈ Close [("a", DB.mk 0 (some (.driver 5))), ("b", DB.mk 1 none)]
      ↔ (DB.mk 0 (some (.driver 5))).closeRes.isSome) ∧
    (("b", DB.mk 1 none)
        ∈ Close [("a", DB.mk 0 (some (.driver 5))), ("b", DB.mk 1 none)]
      ↔ (DB.mk 1 none).closeRes.isSome) :=
  ⟨by decide, by decide,
   (closeAll_keeps_failures
      [("a", DB.mk 0 (some (.driver 5))), ("b", DB.mk 1 none)]
      (by decide) "a" (DB.mk 0 (some (.driver 5))) (by decide)).1,
   (closeAll_keeps_failures
      [("a", DB.mk 0 (some (.driver 5))), ("b", DB.mk 1 none)]
      (by decide) "b" (DB.mk 1 none) (by decide)).1⟩

/-! ### C8: sorted duplicate-free enumeration, removal visible -/

/-- C8: `Databases` lists the registered names sorted and without
duplicates; a name removed by a successful `DB.Close` (identity-based)
or by the close-all loop no longer appears. -/
theorem databases_sorted_nodup_removed (pool : Pool)
    (hk : (pool.map Prod.fst).Nodup)
    (hid : (pool.map (fun p => p.2.id)).Nodup) :
    (Databases pool).Sorted (· ≤ ·) ∧
    (Databases pool).Nodup ∧
    (∀ n d, (n, d) ∈ pool → d.closeRes = none →
      DB.Close pool d
          = (none, pool.eraseP (fun p => p.2.id == d.id)) ∧
      n ∉ Databases (DB.Close pool d).2 ∧
      n ∉ Databases (Close pool)) := by
  refine ⟨List.sorted_insertionSort _ _,
    ((List.perm_insertionSort _ _).nodup_iff).mpr hk, ?_⟩
  intro n d hm hres
  have hclose : DB.Close pool d
      = (none, pool.eraseP (fun p => p.2.id == d.id)) := by
    simp [DB.Close, hres]
  refine ⟨hclose, ?_, ?_⟩
  · rw [hclose]
    rw [Databases, List.mem_insertionSort]
    exact keys_eraseP_id pool d n hk hid hm
  · rw [Databases, List.mem_insertionSort]
    rw [close_eq_filter pool hk]
    intro hn
    obtain ⟨p, hp, hp1⟩ := List.mem_map.mp hn
    have hpd : p = (n, d) :=
      key_unique pool hk (List.mem_of_mem_filter hp) hm hp1
    rw [hpd] at hp
    have h2 := (List.mem_filter.mp hp).2
    rw [keepCond_of_mem pool n d hm, hres] at h2
    simp at h2

/-- Witness for C8 on a concrete two-entry registry. -/
theorem databases_sorted_nodup_removed_witness :
    ([("b", DB.mk 0 none), ("a", DB.mk 1 none)].map Prod.fst).Nodup ∧
    ([("b", DB.mk 0 none), ("a", DB.mk 1 none)].map
        (fun p => p.2.id)).Nodup ∧
    "b" ∉ Databases
        (DB.Close [("b", DB.mk 0 none), ("a", DB.mk 1 none)]
          (DB.mk 0 none)).2 ∧
    "b" ∉ Databases (Close [("b", DB.mk 0 none), ("a", DB.mk 1 none)]) :=
  ⟨by decide, by decide,
   (((databases_sorted_nodup_removed
        [("b", DB.mk 0 none), ("a", DB.mk 1 none)] (by decide)
        (by decide)).2.2) "b" (DB.mk 0 none) (by decide) rfl).2.1,
   (((databases_sorted_nodup_removed
        [("b", DB.mk 0 none), ("a", DB.mk 1 none)] (by decide)
        (by decide)).2.2) "b" (DB.mk 0 none) (by decide) rfl).2.2⟩

/-! ### C2: the snapshot mapping across advances -/

/-- Well-formedness of the snapshot: when present, the stored column list
is present too and the snapshot has no key outside it. Holds for every
reachable cursor state. -/
def WFvals (rs : Rows) : Prop :=
  match rs.values with
  | none => True
  | some m => ∃ cols, rs.columns = some cols ∧
      ∀ c, c ∉ cols → lookupVal m c = none

theorem snapshot_of_push (m : List (String × Value)) (cols : List String)
    (vals : List Value) (hwf : ∀ c, c ∉ cols → lookupVal m c = none)
    (hlen : vals.length = cols.length) :
    ∀ c, lookupVal (pushAll m cols vals) c = snapLookup cols vals c := by
  intro c
  rw [lookupVal_pushAll]
  cases hs : snapLookup cols vals c with
  | some v => rfl
  | none =>
    by_cases hc : c ∈ cols
    · have hsome := snapLookup_isSome cols vals c hc hlen
      rw [hs] at hsome
      simp at hsome
    · exact hwf c hc

theorem nextS_true (s s1 : SqlRows) (h : s.nextS = (true, s1)) :
    ∃ r rest, s.pending = r :: rest ∧ s1.cur = some r ∧
      s1.pending = rest := by
  unfold SqlRows.nextS at h
  by_cases hc : s.closed
  · simp [hc] at h
  by_cases he : s.errSeen.isSome
  · simp [hc, he] at h
  cases hp : s.pending with
  | nil => simp [hc, he, hp] at h
  | cons r rest =>
    simp only [hc, he, hp, if_false, Bool.false_eq_true,
      Prod.mk.injEq, true_and] at h
    subst h
    exact ⟨r, rest, rfl, rfl, rfl⟩

theorem scanLoadS_ok (s : SqlRows) (want : Nat) (vals : List Value)
    (h : s.scanLoadS want = .ok vals) :
    ∃ r, s.cur = some r ∧ r.scanErr = none ∧ r.vals = vals ∧
      vals.length = want := by
  cases hc : s.cur with
  | none => simp [SqlRows.scanLoadS, hc] at h
  | some r =>
    cases hse : r.scanErr with
    | some e => simp [SqlRows.scanLoadS, hc, hse] at h
    | none =>
      by_cases hl : r.vals.length = want
      · have hv : r.vals = vals := by
          simpa [SqlRows.scanLoadS, hc, hse, hl] using h
        exact ⟨r, rfl, hse, hv, by rw [← hv]; exact hl⟩
      · simp [SqlRows.scanLoadS, hc, hse, hl] at h

theorem Next_true_spec (rs rs' : Rows) (hwf : WFvals rs)
    (h : Rows.Next rs = (true, rs')) :
    ∃ cols r rest m,
      rs.sql.pending = r :: rest ∧ rs'.columns = some cols ∧
      rs'.values = some m ∧
      ∀ c, lookupVal m c = snapLookup cols r.vals c := by
  cases herr : rs.err with
  | some e => rw [Next_eq_err rs e herr] at h; simp at h
  | none =>
    cases hn : rs.sql.nextS with
    | mk b s1 =>
      cases b with
      | false => rw [Next_eq_stop rs s1 herr hn] at h; simp at h
      | true =>
        obtain ⟨r, rest, hpend, hcur, hrest⟩ := nextS_true rs.sql s1 hn
        cases hcols : rs.columns with
        | none =>
          cases hcr : s1.columnsS with
          | error e =>
            rw [Next_eq_colsErr rs s1 e herr hn hcols hcr] at h
            simp at h
          | ok cols =>
            cases hsc : s1.scanLoadS cols.length with
            | error e =>
              rw [Next_eq_scanErrFirst rs s1 cols e herr hn hcols hcr hsc]
                at h
              simp at h
            | ok vals =>
              rw [Next_eq_okFirst rs s1 cols vals herr hn hcols hcr hsc]
                at h
              simp only [Prod.mk.injEq, true_and] at h
              subst h
              obtain ⟨r2, hcur2, _, hrv, hlen⟩ :=
                scanLoadS_ok s1 cols.length vals hsc
              have hr2 : r2 = r := by
                rw [hcur] at hcur2
                cases hcur2
                rfl
              have hv : vals = r.vals := by rw [← hrv, hr2]
              subst hv
              exact ⟨cols, r, rest, pushAll [] cols r.vals, hpend, rfl,
                rfl,
                snapshot_of_push [] cols r.vals (fun c _ => rfl) hlen⟩
        | some cols =>
          cases hsc : s1.scanLoadS cols.length with
          | error e =>
            rw [Next_eq_scanErrLater rs s1 cols e herr hn hcols hsc] at h
            simp at h
          | ok vals =>
            rw [Next_eq_okLater rs s1 cols vals herr hn hcols hsc] at h
            simp only [Prod.mk.injEq, true_and] at h
            subst h
            obtain ⟨r2, hcur2, _, hrv, hlen⟩ :=
              scanLoadS_ok s1 cols.length vals hsc
            have hr2 : r2 = r := by
              rw [hcur] at hcur2
              cases hcur2
              rfl
            have hv : vals = r.vals := by rw [← hrv, hr2]
            subst hv
            refine ⟨cols, r, rest,
              pushAll (rs.values.getD []) cols r.vals, hpend, hcols, rfl,
              ?_⟩
            cases hval : rs.values with
            | none =>
              simp only [hval, Option.getD_none]
              exact snapshot_of_push [] cols r.vals (fun c _ => rfl) hlen
            | some m0 =>
              unfold WFvals at hwf
              rw [hval] at hwf
              obtain ⟨cols0, hcols0, hnone⟩ := hwf
              have hceq : cols0 = cols := by
                rw [hcols] at hcols0
                cases hcols0
                rfl
              subst hceq
              simp only [hval, Option.getD_some]
              exact snapshot_of_push m0 cols0 r.vals hnone hlen

theorem Next_false_values (rs rs' : Rows)
    (h : Rows.Next rs = (false, rs')) :
    (rs'.values = rs.values ∧ rs'.columns = rs.columns) ∨
    (rs.columns = none ∧ rs'.values = some [] ∧
      ∃ cols, rs'.columns = some cols) := by
  cases herr : rs.err with
  | some e =>
    rw [Next_eq_err rs e herr] at h
    simp only [Prod.mk.injEq, true_and] at h
    subst h
    exact Or.inl ⟨rfl, rfl⟩
  | none =>
    cases hn : rs.sql.nextS with
    | mk b s1 =>
      cases b with
      | false =>
        rw [Next_eq_stop rs s1 herr hn] at h
        simp only [Prod.mk.injEq, true_and] at h
        subst h
        exact Or.inl ⟨rfl, rfl⟩
      | true =>
        cases hcols : rs.columns with
        | none =>
          cases hcr : s1.columnsS with
          | error e =>
            rw [Next_eq_colsErr rs s1 e herr hn hcols hcr] at h
            simp only [Prod.mk.injEq, true_and] at h
            subst h
            exact Or.inl ⟨rfl, hcols⟩
          | ok cols =>
            cases hsc : s1.scanLoadS cols.length with
            | error e =>
              rw [Next_eq_scanErrFirst rs s1 cols e herr hn hcols hcr hsc]
                at h
              simp only [Prod.mk.injEq, true_and] at h
              subst h
              exact Or.inr ⟨rfl, rfl, cols, rfl⟩
            | ok vals =>
              rw [Next_eq_okFirst rs s1 cols vals herr hn hcols hcr hsc]
                at h
              simp at h
        | some cols =>
          cases hsc : s1.scanLoadS cols.length with
          | error e =>
            rw [Next_eq_scanErrLater rs s1 cols e herr hn hcols hsc] at h
            simp only [Prod.mk.injEq, true_and] at h
            subst h
            exact Or.inl ⟨rfl, hcols⟩
          | ok vals =>
            rw [Next_eq_okLater rs s1 cols vals herr hn hcols hsc] at h
            simp at h

/-- C2 (amended): the snapshot is nil on a fresh cursor; each successful
advance republishes exactly the decoded values of the row just fetched
(looked up per column name); a failed advance leaves the snapshot as it
was — it is NOT cleared on exhaustion or error — except that a decode
failure on the very first advance leaves an empty non-nil map. -/
theorem rows_snapshot_amended (rs rs' : Rows) (b : Bool)
    (hwf : WFvals rs) (h : Rows.Next rs = (b, rs')) :
    (∀ s : SqlRows, (Rows.fresh s).values = none) ∧
    WFvals rs' ∧
    (b = true →
      ∃ cols r rest m,
        rs.sql.pending = r :: rest ∧ rs'.columns = some cols ∧
        rs'.values = some m ∧
        ∀ c, lookupVal m c = snapLookup cols r.vals c) ∧
    (b = false →
      rs'.values = rs.values ∨
      (rs.columns = none ∧ rs'.values = some [])) := by
  refine ⟨fun _ => rfl, ?_, ?_, ?_⟩
  · cases b with
    | true =>
      obtain ⟨cols, r, rest, m, _, hcols, hvals, hlook⟩ :=
        Next_true_spec rs rs' hwf h
      unfold WFvals
      rw [hvals]
      exact ⟨cols, hcols, fun c hc =>
        (hlook c).trans (snapLookup_eq_none cols r.vals c hc)⟩
    | false =>
      rcases Next_false_values rs rs' h with ⟨hv, hc⟩ | ⟨_, hv, cols, hc⟩
      · unfold WFvals at hwf ⊢
        rw [hv, hc]
        exact hwf
      · unfold WFvals
        rw [hv]
        exact ⟨cols, hc, fun c _ => rfl⟩
  · intro hb
    subst hb
    exact Next_true_spec rs rs' hwf h
  · intro hb
    subst hb
    rcases Next_false_values rs rs' h with ⟨hv, _⟩ | ⟨hcn, hv, _⟩
    · exact Or.inl hv
    · exact Or.inr ⟨hcn, hv⟩

/-- One-row stream used for the C2 counterexample and witness. -/
def sC2x : SqlRows :=
  ⟨[⟨[.vInt .i64 1], none, none⟩], none, .ok ["id"], none, none, false,
    none⟩

/-- C2 counterexample: after the one-row stream is exhausted (the second
advance returns false with no error), the snapshot still holds the last
row — it is not nil/absent as the claim states. -/
theorem rows_snapshot_cleared_counterexample :
    (Rows.Next (advanceN 1 (Rows.fresh sC2x))).1 = false ∧
    (advanceN 2 (Rows.fresh sC2x)).err = none ∧
    (advanceN 2 (Rows.fresh sC2x)).sql.pending = [] ∧
    (advanceN 2 (Rows.fresh sC2x)).values
      = some [("id", Value.vInt .i64 1)] ∧
    (advanceN 2 (Rows.fresh sC2x)).values ≠ none := by decide

/-- Witness for C2 (amended) at the concrete one-row stream. -/
theorem rows_snapshot_amended_witness :
    WFvals (Rows.fresh sC2x) ∧
    Rows.Next (Rows.fresh sC2x)
      = (true,
          Rows.mk
            ⟨[], none, .ok ["id"], some ⟨[.vInt .i64 1], none, none⟩,
              none, false, none⟩
            none (some ["id"]) (some [("id", .vInt .i64 1)])) ∧
    WFvals
      (Rows.mk
        ⟨[], none, .ok ["id"], some ⟨[.vInt .i64 1], none, none⟩,
          none, false, none⟩
        none (some ["id"]) (some [("id", .vInt .i64 1)])) :=
  ⟨trivial, by decide,
   (rows_snapshot_amended (Rows.fresh sC2x)
      (Rows.mk
        ⟨[], none, .ok ["id"], some ⟨[.vInt .i64 1], none, none⟩,
          none, false, none⟩
        none (some ["id"]) (some [("id", .vInt .i64 1)]))
      true trivial (by decide)).2.1⟩

/-! ### C1: the single-row view advances at most once and always closes -/

theorem closeS_snd_closed (s : SqlRows) : (s.closeS).2.closed = true := by
  unfold SqlRows.closeS
  by_cases h : s.closed <;> simp [h]

theorem closeS_snd_pending (s : SqlRows) :
    (s.closeS).2.pending = s.pending := by
  unfold SqlRows.closeS
  by_cases h : s.closed <;> simp [h]

theorem CloseR_spec (rs : Rows) :
    (Rows.CloseR rs).2 = { rs with sql := (rs.sql.closeS).2 } := by
  cases hs : rs.sql.closeS with
  | mk e s' => simp [Rows.CloseR, hs]

theorem CloseR_sql_closed (rs : Rows) :
    (Rows.CloseR rs).2.sql.closed = true := by
  rw [CloseR_spec]
  exact closeS_snd_closed rs.sql

theorem CloseR_sql_pending (rs : Rows) :
    (Rows.CloseR rs).2.sql.pending = rs.sql.pending := by
  rw [CloseR_spec]
  exact closeS_snd_pending rs.sql

theorem CloseR_of_closed (rs : Rows) (h : rs.sql.closed = true) :
    (Rows.CloseR rs).2 = rs := by
  rw [CloseR_spec]
  have hs : (rs.sql.closeS).2 = rs.sql := by
    unfold SqlRows.closeS
    simp [h]
  rw [hs]

theorem nextS_of_closed (s : SqlRows) (h : s.closed = true) :
    s.nextS = (false, s) := by
  unfold SqlRows.nextS
  simp [h]

theorem Next_of_closed (rs : Rows) (h : rs.sql.closed = true) :
    Rows.Next rs = (false, rs) := by
  cases herr : rs.err with
  | some e => exact Next_eq_err rs e herr
  | none => exact Next_eq_stop rs rs.sql herr (nextS_of_closed rs.sql h)

theorem nextS_pending (s : SqlRows) :
    s.pending.length ≤ (s.nextS).2.pending.length + 1 := by
  unfold SqlRows.nextS
  by_cases hc : s.closed
  · simp [hc]
  by_cases he : s.errSeen.isSome
  · simp [hc, he]
  cases hp : s.pending <;> simp [hc, he, hp]

theorem Next_sql (rs : Rows) :
    (Rows.Next rs).2.sql = rs.sql ∨
    (Rows.Next rs).2.sql = (rs.sql.nextS).2 := by
  cases herr : rs.err with
  | some e => rw [Next_eq_err rs e herr]; exact Or.inl rfl
  | none =>
    cases hn : rs.sql.nextS with
    | mk b s1 =>
      cases b with
      | false =>
        rw [Next_eq_stop rs s1 herr hn]
        exact Or.inr rfl
      | true =>
        cases hcols : rs.columns with
        | none =>
          cases hcr : s1.columnsS with
          | error e =>
            rw [Next_eq_colsErr rs s1 e herr hn hcols hcr]
            exact Or.inr rfl
          | ok cols =>
            cases hsc : s1.scanLoadS cols.length with
            | error e =>
              rw [Next_eq_scanErrFirst rs s1 cols e herr hn hcols hcr hsc]
              exact Or.inr rfl
            | ok vals =>
              rw [Next_eq_okFirst rs s1 cols vals herr hn hcols hcr hsc]
              exact Or.inr rfl
        | some cols =>
          cases hsc : s1.scanLoadS cols.length with
          | error e =>
            rw [Next_eq_scanErrLater rs s1 cols e herr hn hcols hsc]
            exact Or.inr rfl
          | ok vals =>
            rw [Next_eq_okLater rs s1 cols vals herr hn hcols hsc]
            exact Or.inr rfl

theorem Next_pending (rs : Rows) :
    rs.sql.pending.length ≤ (Rows.Next rs).2.sql.pending.length + 1 := by
  rcases Next_sql rs with h | h <;> rw [h]
  · exact Nat.le_succ _
  · exact nextS_pending rs.sql

theorem next_done (r : Row) (h : r.next = true) :
    KSql.next r = (none, r) := by
  simp [KSql.next, h]

theorem next_noRow (r : Row) (rows1 : Rows) (h : r.next = false)
    (hN : Rows.Next r.rows = (false, rows1)) :
    KSql.next r = (some ((rows1.Err).getD .noRows),
      { r with next := true, rows := (Rows.CloseR rows1).2 }) := by
  simp [KSql.next, h, hN]

theorem next_row (r : Row) (rows1 : Rows) (h : r.next = false)
    (hN : Rows.Next r.rows = (true, rows1)) :
    KSql.next r = ((Rows.CloseR rows1).1,
      { r with next := true, rows := (Rows.CloseR rows1).2 }) := by
  cases hC : Rows.CloseR rows1 with
  | mk ce rows2 => cases ce <;> simp [KSql.next, h, hN, hC]

theorem getBy_done (r : Row) (g : Getter) (c : String)
    (h : r.next = true) :
    Row.getBy g r c = (Rows.getBy g r.rows c, r) := by
  simp [Row.getBy, next_done r h]

theorem stepOp_get_advances (r : Row) (g : Getter) (c : String)
    (h : r.next = false) :
    ∃ b rows1, Rows.Next r.rows = (b, rows1) ∧
      Row.stepOp r (.get g c)
        = { r with next := true, rows := (Rows.CloseR rows1).2 } := by
  cases hN : Rows.Next r.rows with
  | mk b rows1 =>
    refine ⟨b, rows1, rfl, ?_⟩
    cases b with
    | false => simp [Row.stepOp, Row.getBy, next_noRow r rows1 h hN]
    | true =>
      rw [Row.stepOp, Row.getBy, next_row r rows1 h hN]
      cases hC : (Rows.CloseR rows1).1 <;> simp [hC]

theorem stepOp_get_done (r : Row) (g : Getter) (c : String)
    (h : r.next = true) : Row.stepOp r (.get g c) = r := by
  simp [Row.stepOp, getBy_done r g c h]

theorem stepOp_scan_err (r : Row) (e : GoErr) (h : r.err = some e) :
    Row.stepOp r .scan = r := by
  simp [Row.stepOp, Row.Scan, h]

theorem stepOp_scan_advances (r : Row) (h : r.err = none) :
    ∃ b rows1, Rows.Next r.rows = (b, rows1) ∧
      Row.stepOp r .scan = { r with rows := (Rows.CloseR rows1).2 } := by
  cases hN : Rows.Next r.rows with
  | mk b rows1 =>
    refine ⟨b, rows1, rfl, ?_⟩
    cases b with
    | false => simp [Row.stepOp, Row.Scan, h, hN]
    | true =>
      cases hd : rows1.sql.scanDestS with
      | some e => simp [Row.stepOp, Row.Scan, h, hN, hd]
      | none =>
        cases hC : Rows.CloseR rows1 with
        | mk ce rows2 =>
          cases ce <;> simp [Row.stepOp, Row.Scan, h, hN, hd, hC]

theorem stepOp_err (r : Row) (op : RowOp) :
    (Row.stepOp r op).err = r.err := by
  cases op with
  | get g c =>
    cases hnx : r.next with
    | true => rw [stepOp_get_done r g c hnx]
    | false =>
      obtain ⟨b, rows1, _, hstep⟩ := stepOp_get_advances r g c hnx
      rw [hstep]
  | scan =>
    cases herr : r.err with
    | some e =>
      rw [stepOp_scan_err r e herr]
      exact herr
    | none =>
      obtain ⟨b, rows1, _, hstep⟩ := stepOp_scan_advances r herr
      rw [hstep]
      exact herr

theorem stepOp_pending (r : Row) (op : RowOp) :
    r.rows.sql.pending.length
      ≤ (Row.stepOp r op).rows.sql.pending.length + 1 := by
  cases op with
  | get g c =>
    cases hnx : r.next with
    | true => rw [stepOp_get_done r g c hnx]; exact Nat.le_succ _
    | false =>
      obtain ⟨b, rows1, hN, hstep⟩ := stepOp_get_advances r g c hnx
      rw [hstep]
      show r.rows.sql.pending.length
        ≤ (Rows.CloseR rows1).2.sql.pending.length + 1
      rw [CloseR_sql_pending]
      have := Next_pending r.rows
      rw [hN] at this
      exact this
  | scan =>
    cases herr : r.err with
    | some e => rw [stepOp_scan_err r e herr]; exact Nat.le_succ _
    | none =>
      obtain ⟨b, rows1, hN, hstep⟩ := stepOp_scan_advances r herr
      rw [hstep]
      show r.rows.sql.pending.length
        ≤ (Rows.CloseR rows1).2.sql.pending.length + 1
      rw [CloseR_sql_pending]
      have := Next_pending r.rows
      rw [hN] at this
      exact this

theorem stepOp_frozen (r : Row) (op : RowOp)
    (h : r.rows.sql.closed = true) :
    (Row.stepOp r op).rows.sql = r.rows.sql := by
  have hA : Rows.Next r.rows = (false, r.rows) := Next_of_closed r.rows h
  cases op with
  | get g c =>
    cases hnx : r.next with
    | true => rw [stepOp_get_done r g c hnx]
    | false =>
      obtain ⟨b, rows1, hN, hstep⟩ := stepOp_get_advances r g c hnx
      rw [hA] at hN
      have hb : rows1 = r.rows := by
        cases hN
        rfl
      rw [hstep, hb]
      show (Rows.CloseR r.rows).2.sql = r.rows.sql
      rw [CloseR_of_closed r.rows h]
  | scan =>
    cases herr : r.err with
    | some e => rw [stepOp_scan_err r e herr]
    | none =>
      obtain ⟨b, rows1, hN, hstep⟩ := stepOp_scan_advances r herr
      rw [hA] at hN
      have hb : rows1 = r.rows := by
        cases hN
        rfl
      rw [hstep, hb]
      show (Rows.CloseR r.rows).2.sql = r.rows.sql
      rw [CloseR_of_closed r.rows h]

/-- Invariant of the single-row view relative to its initial state: the
construction error is untouched; once closed, at most one row was ever
consumed; while open, nothing has happened at all. -/
def RowInv (r0 r : Row) : Prop :=
  r.err = r0.err ∧
  (r.rows.sql.closed = true →
    r0.rows.sql.pending.length ≤ r.rows.sql.pending.length + 1) ∧
  (r.rows.sql.closed = false →
    r.rows.sql = r0.rows.sql ∧ r.next = false)

theorem RowInv_step (r0 r : Row) (op : RowOp) (hInv : RowInv r0 r) :
    RowInv r0 (Row.stepOp r op) := by
  obtain ⟨hE, hB, hO⟩ := hInv
  refine ⟨(stepOp_err r op).trans hE, ?_, ?_⟩
  · intro _
    by_cases hcl : r.rows.sql.closed
    · rw [stepOp_frozen r op hcl]
      exact hB hcl
    · obtain ⟨hsql, _⟩ := hO (by simpa using hcl)
      have hp := stepOp_pending r op
      rw [hsql] at hp
      exact hp
  · intro hcl'
    by_cases hcl : r.rows.sql.closed
    · rw [stepOp_frozen r op hcl, hcl] at hcl'
      cases hcl'
    · obtain ⟨hsql, hnx⟩ := hO (by simpa using hcl)
      cases op with
      | get g c =>
        obtain ⟨b, rows1, _, hstep⟩ := stepOp_get_advances r g c hnx
        rw [hstep] at hcl'
        have hF : ((Rows.CloseR rows1).2).sql.closed = false := hcl'
        rw [CloseR_sql_closed rows1] at hF
        cases hF
      | scan =>
        cases herr : r.err with
        | some e =>
          rw [stepOp_scan_err r e herr] at hcl' ⊢
          exact ⟨hsql, hnx⟩
        | none =>
          obtain ⟨b, rows1, _, hstep⟩ := stepOp_scan_advances r herr
          rw [hstep] at hcl'
          have hF : ((Rows.CloseR rows1).2).sql.closed = false := hcl'
          rw [CloseR_sql_closed rows1] at hF
          cases hF

theorem RowInv_run (r0 : Row) (ops : List RowOp) :
    ∀ r, RowInv r0 r → RowInv r0 (Row.run r ops) := by
  induction ops with
  | nil => intro r h; exact h
  | cons op ops ih =>
    intro r h
    exact ih (r.stepOp op) (RowInv_step r0 r op h)

theorem run_closed_mono (ops : List RowOp) :
    ∀ r : Row, r.rows.sql.closed = true →
      (Row.run r ops).rows.sql.closed = true := by
  induction ops with
  | nil => intro r h; exact h
  | cons op ops ih =>
    intro r h
    have h1 : (Row.stepOp r op).rows.sql.closed = true := by
      rw [stepOp_frozen r op h]
      exact h
    exact ih (r.stepOp op) h1

theorem run_attempt_closes (r0 : Row) (ops : List RowOp) :
    ∀ r, RowInv r0 r → anyAttempt r0.err ops = true →
      (Row.run r ops).rows.sql.closed = true := by
  induction ops with
  | nil =>
    intro r _ hatt
    simp [anyAttempt] at hatt
  | cons op ops ih =>
    intro r hInv hatt
    by_cases hcl : r.rows.sql.closed
    · have h1 : (Row.stepOp r op).rows.sql.closed = true := by
        rw [stepOp_frozen r op hcl]
        exact hcl
      exact run_closed_mono ops (r.stepOp op) h1
    · obtain ⟨hsql, hnx⟩ := hInv.2.2 (by simpa using hcl)
      cases op with
      | get g c =>
        obtain ⟨b, rows1, _, hstep⟩ := stepOp_get_advances r g c hnx
        have h1 : (Row.stepOp r (.get g c)).rows.sql.closed = true := by
          rw [hstep]
          exact CloseR_sql_closed rows1
        exact run_closed_mono ops _ h1
      | scan =>
        cases herr : r.err with
        | none =>
          obtain ⟨b, rows1, _, hstep⟩ := stepOp_scan_advances r herr
          have h1 : (Row.stepOp r .scan).rows.sql.closed = true := by
            rw [hstep]
            exact CloseR_sql_closed rows1
          exact run_closed_mono ops _ h1
        | some e =>
          have hE : r0.err = some e := by
            rw [← hInv.1]
            exact herr
          have hatt' : anyAttempt r0.err ops = true := by
            simpa [anyAttempt, hE] using hatt
          have hstep : Row.stepOp r .scan = r := stepOp_scan_err r e herr
          show (Row.run (r.stepOp .scan) ops).rows.sql.closed = true
          rw [hstep]
          exact ih r hInv hatt'

/-- C1: over any sequence of `Scan` and typed-getter calls on a
single-row view over an open cursor, at most one underlying row is ever
consumed, and as soon as one call reaches the advance body (every getter
does; `Scan` does unless a construction error is pending) the underlying
cursor is closed, whatever the outcome was. -/
theorem row_view_single_advance (r0 : Row) (ops : List RowOp)
    (_hcl : r0.rows.sql.closed = false) (hnx : r0.next = false) :
    r0.rows.sql.pending.length
        ≤ (Row.run r0 ops).rows.sql.pending.length + 1 ∧
    (anyAttempt r0.err ops = true →
      (Row.run r0 ops).rows.sql.closed = true) := by
  have hInv0 : RowInv r0 r0 :=
    ⟨rfl, fun _ => Nat.le_succ _, fun _ => ⟨rfl, hnx⟩⟩
  have hInvN := RowInv_run r0 ops r0 hInv0
  constructor
  · by_cases hclN : (Row.run r0 ops).rows.sql.closed
    · exact hInvN.2.1 hclN
    · rw [(hInvN.2.2 (by simpa using hclN)).1]
      exact Nat.le_succ _
  · exact run_attempt_closes r0 ops r0 hInv0

/-- Mixed operation sequence used by the C1 witness. -/
def opsW : List RowOp :=
  [.get .gInt "id", .get .gStr "id", .scan]

/-- Witness for C1: a one-row stream, hit by two getters and a scan. -/
theorem row_view_single_advance_witness :
    (Row.fresh sC2x).rows.sql.closed = false ∧
    (Row.fresh sC2x).next = false ∧
    anyAttempt (Row.fresh sC2x).err opsW = true ∧
    (Row.fresh sC2x).rows.sql.pending.length
      ≤ (Row.run (Row.fresh sC2x) opsW).rows.sql.pending.length + 1 ∧
    (Row.run (Row.fresh sC2x) opsW).rows.sql.closed = true :=
  ⟨rfl, rfl, by decide,
   (row_view_single_advance (Row.fresh sC2x) opsW rfl rfl).1,
   (row_view_single_advance (Row.fresh sC2x) opsW rfl rfl).2
     (by decide)⟩

/-! ### C5: single-row query semantics -/

/-- A one-row stream with clean scan and close outcomes, as produced by
a single-row query matching exactly one row. -/
def oneRowStream (te : Option GoErr) (cols : List String)
    (vals : List Value) (dse : Option GoErr) : SqlRows :=
  ⟨[⟨vals, none, dse⟩], te, .ok cols, none, none, false, none⟩

/-- The buffered cursor state after the single advance-and-close of a
one-row view: stream drained and closed, snapshot cached. -/
def rowsAfterOne (te : Option GoErr) (cols : List String)
    (vals : List Value) (dse : Option GoErr) : Rows :=
  ⟨⟨[], te, .ok cols, some ⟨vals, none, dse⟩, none, true, none⟩, none,
    some cols, some (pushAll [] cols vals)⟩

theorem zero_rows_next (te : Option GoErr)
    (cr : Except GoErr (List String)) (ce : Option GoErr) :
    Rows.Next (Rows.fresh ⟨[], te, cr, none, none, false, ce⟩)
      = (false, ⟨⟨[], te, cr, none, te, false, ce⟩, none, none, none⟩) :=
  Next_eq_stop _ _ rfl rfl

theorem zero_rows_err (te : Option GoErr)
    (cr : Except GoErr (List String)) (ce : Option GoErr) :
    (⟨⟨[], te, cr, none, te, false, ce⟩, none, none, none⟩ : Rows).Err
      = te := by
  unfold Rows.Err SqlRows.errS
  cases te <;> rfl

theorem first_get_one_row (te : Option GoErr) (cols : List String)
    (vals : List Value) (dse : Option GoErr) (g : Getter) (c : String)
    (hlen : vals.length = cols.length) :
    Row.getBy g (Row.fresh (oneRowStream te cols vals dse)) c
      = (Rows.getBy g (rowsAfterOne te cols vals dse) c,
         ⟨none, true, rowsAfterOne te cols vals dse⟩) := by
  have hsc : (⟨[], te, .ok cols, some ⟨vals, none, dse⟩, none, false,
        none⟩ : SqlRows).scanLoadS cols.length = .ok vals := by
    unfold SqlRows.scanLoadS
    simp [hlen]
  have hN : Rows.Next (Rows.fresh (oneRowStream te cols vals dse))
      = (true,
          ⟨⟨[], te, .ok cols, some ⟨vals, none, dse⟩, none, false, none⟩,
            none, some cols, some (pushAll [] cols vals)⟩) :=
    Next_eq_okFirst _ _ cols vals rfl rfl rfl rfl hsc
  have hC : Rows.CloseR
      (⟨⟨[], te, .ok cols, some ⟨vals, none, dse⟩, none, false, none⟩,
        none, some cols, some (pushAll [] cols vals)⟩ : Rows)
      = (none, rowsAfterOne te cols vals dse) := rfl
  rw [Row.getBy, next_row _ _ rfl hN, hC]
  rfl

theorem Scan_noRow (r : Row) (rows1 : Rows) (h : r.err = none)
    (hN : Rows.Next r.rows = (false, rows1)) :
    Row.Scan r = (.error ((rows1.Err).getD .noRows),
      { r with rows := (Rows.CloseR rows1).2 }) := by
  simp [Row.Scan, h, hN]

theorem runGets_after (r : Row) (h : r.next = true)
    (calls : List (Getter × String)) :
    Row.runGets r calls
      = (calls.map (fun gc => Rows.getBy gc.1 r.rows gc.2), r) := by
  induction calls with
  | nil => simp [Row.runGets]
  | cons gc rest ih =>
    cases gc with
    | mk g0 c0 => simp [Row.runGets, getBy_done r g0 c0 h, ih]

/-- C5: on a single-row query matching zero rows, the first getter call
and `Scan` fail with the stream's own error when present and `NoRows`
otherwise; on a query matching exactly one clean row, every getter call
in any sequence returns the result read from the one cached snapshot
(succeeding whenever the stored kind matches the accessor), the stream
having been advanced exactly once and closed. -/
theorem row_single_row_semantics (te : Option GoErr)
    (cr : Except GoErr (List String)) (ce : Option GoErr) (g : Getter)
    (c : String) (cols : List String) (vals : List Value)
    (dse : Option GoErr) (calls : List (Getter × String))
    (hlen : vals.length = cols.length) :
    (Row.getBy g (Row.fresh ⟨[], te, cr, none, none, false, ce⟩) c).1
        = .error (te.getD .noRows) ∧
    (Row.Scan (Row.fresh ⟨[], te, cr, none, none, false, ce⟩)).1
        = .error (te.getD .noRows) ∧
    (Row.runGets (Row.fresh (oneRowStream te cols vals dse)) calls).1
        = calls.map (fun gc =>
            Rows.getBy gc.1 (rowsAfterOne te cols vals dse) gc.2) ∧
    (calls ≠ [] →
      (Row.runGets (Row.fresh (oneRowStream te cols vals dse)) calls).2
        = ⟨none, true, rowsAfterOne te cols vals dse⟩) ∧
    (rowsAfterOne te cols vals dse).sql.pending = [] ∧
    (rowsAfterOne te cols vals dse).sql.closed = true ∧
    (rowsAfterOne te cols vals dse).values = some (pushAll [] cols vals) ∧
    (∀ c2 b2, lookupVal (pushAll [] cols vals) c2 = some (.vBool b2) →
      Rows.getBy .gBool (rowsAfterOne te cols vals dse) c2
        = .ok (.ob b2)) ∧
    (∀ c2 k n, lookupVal (pushAll [] cols vals) c2 = some (.vInt k n) →
      Rows.getBy .gInt (rowsAfterOne te cols vals dse) c2
        = .ok (.oi n)) ∧
    (∀ c2 k x, lookupVal (pushAll [] cols vals) c2 = some (.vFloat k x) →
      Rows.getBy .gDouble (rowsAfterOne te cols vals dse) c2
        = .ok (.od x)) ∧
    (∀ c2 s2, lookupVal (pushAll [] cols vals) c2 = some (.vStr s2) →
      Rows.getBy .gStr (rowsAfterOne te cols vals dse) c2
        = .ok (.os s2)) ∧
    (∀ c2 t2, lookupVal (pushAll [] cols vals) c2 = some (.vTime t2) →
      Rows.getBy .gTime (rowsAfterOne te cols vals dse) c2
        = .ok (.ot t2)) := by
  have hN := zero_rows_next te cr ce
  have hE := zero_rows_err te cr ce
  refine ⟨?_, ?_, ?_, ?_, rfl, rfl, rfl, ?_, ?_, ?_, ?_, ?_⟩
  · rw [Row.getBy, next_noRow _ _ rfl hN, hE]
  · rw [Scan_noRow _ _ rfl hN, hE]
  · cases calls with
    | nil => simp [Row.runGets]
    | cons gc rest =>
      cases gc with
      | mk g0 c0 =>
        simp [Row.runGets, first_get_one_row te cols vals dse g0 c0 hlen,
          runGets_after ⟨none, true, rowsAfterOne te cols vals dse⟩ rfl
            rest]
  · intro hne
    cases calls with
    | nil => exact absurd rfl hne
    | cons gc rest =>
      cases gc with
      | mk g0 c0 =>
        simp [Row.runGets, first_get_one_row te cols vals dse g0 c0 hlen,
          runGets_after ⟨none, true, rowsAfterOne te cols vals dse⟩ rfl
            rest]
  · intro c2 b2 hlk
    simp [Rows.getBy, Rows.GetBoolean, rowsAfterOne, mapIndex, hlk,
      Except.map]
  · intro c2 k n hlk
    simp [Rows.getBy, Rows.GetInteger, validateRows, Rows.Err,
      SqlRows.errS, rowsAfterOne, mapIndex, hlk, convertToInt,
      Except.map]
  · intro c2 k x hlk
    simp [Rows.getBy, Rows.GetDouble, validateRows, Rows.Err,
      SqlRows.errS, rowsAfterOne, mapIndex, hlk, convertToDouble,
      Except.map]
  · intro c2 s2 hlk
    simp [Rows.getBy, Rows.GetString, validateRows, Rows.Err,
      SqlRows.errS, rowsAfterOne, mapIndex, hlk, convertToString,
      Except.map]
  · intro c2 t2 hlk
    simp [Rows.getBy, Rows.GetTime, validateRows, Rows.Err,
      SqlRows.errS, rowsAfterOne, mapIndex, hlk, convertToTime,
      Except.map]

/-- Witness for C5 at a concrete zero-row and one-row query. -/
theorem row_single_row_semantics_witness :
    ([Value.vInt .i64 1].length = ["id"].length) ∧
    (Row.getBy .gInt
        (Row.fresh ⟨[], none, .ok [], none, none, false, none⟩) "id").1
      = .error .noRows ∧
    (Row.runGets
        (Row.fresh (oneRowStream none ["id"] [.vInt .i64 1] none))
        [(.gInt, "id"), (.gInt, "id")]).1
      = [(.gInt, "id"), (.gInt, "id")].map (fun gc =>
          Rows.getBy gc.1 (rowsAfterOne none ["id"] [.vInt .i64 1] none)
            gc.2) :=
  ⟨rfl,
   (row_single_row_semantics none (.ok []) none .gInt "id" ["id"]
      [.vInt .i64 1] none [(.gInt, "id"), (.gInt, "id")] rfl).1,
   (row_single_row_semantics none (.ok []) none .gInt "id" ["id"]
      [.vInt .i64 1] none [(.gInt, "id"), (.gInt, "id")] rfl).2.2.1⟩

end KSql
